import Mathlib

/-!
Shallow embedding of the pentagon sandboxed code-execution service.

Source files embedded here:
  * `src/types.rs`   — the tagged data model (`FilePath`, `Execution`, …).
  * `src/utils.rs`   — `autofix`, the stdout normalizer.
  * `src/worker.rs`  — `Worker::execute`: copy_in staging, the copy_out
    phase (guarded on the child's exit code), the unconditional
    `return_files` drain, and result assembly.
  * `src/handlers/run.rs` — the batch loops of `execute_code_inner`
    (SSE endpoint) and of the WebSocket `handle_socket` `Batch` arm.

Machine bytes are modelled as `Nat` (the code never does arithmetic on
them, only comparisons against the literals `\n`, space, tab, `\r`).
File-system state, the per-worker tmp map and the blob store are
association lists; the child process itself is external, so
`Worker.execute` takes the observed child outcome (`RunOutcome`,
mirroring hakoniwa's `output.status` plus the captured streams) as an
explicit oracle argument.

Failure modes are kept apart: `Res.err` is a returned `ExecutionError`,
`Res.crash` is a Rust panic (an `unwrap()` of an `Err`/`None`).
-/

/-- A byte buffer (`Vec<u8>`); bytes as `Nat`. -/
abbrev Bytes := List Nat

/-- `FilePath` from `src/types.rs`, with the `max_size` fields that
`src/worker.rs` destructures on `Stdout`/`Stderr`. -/
inductive FilePath where
  | Local (name : String) (executable : Bool)
  | Data (content : Bytes)
  | Remote (id : String)
  | Stdout (max_size : Option Nat)
  | Stderr (max_size : Option Nat)
  | Stdin
  | Tmp (id : Nat)
deriving DecidableEq

/-- `ExecutionTransfer` from `src/types.rs` (`from` / `to` are Lean
keywords, hence the trailing underscore). -/
structure ExecutionTransfer where
  from_ : FilePath
  to_ : FilePath
deriving DecidableEq

/-- `Execution` from `src/types.rs`, plus the optional `autofix` flag
that `src/worker.rs` reads with `unwrap_or(true)`. -/
structure Execution where
  program : String
  args : List String
  time_limit : Nat
  wall_time_limit : Nat
  memory_limit : Nat
  copy_out : List ExecutionTransfer
  copy_in : List ExecutionTransfer
  return_files : List FilePath
  die_on_error : Bool
  autofix : Option Bool
deriving DecidableEq

/-- `ExecutionFile` from `src/types.rs`. -/
structure ExecutionFile where
  name : String
  content : Bytes
deriving DecidableEq

/-- `ExecutionResult` from `src/types.rs`. -/
structure ExecutionResult where
  exit_code : Int
  time_used : Nat
  memory_used : Nat
  return_files : List ExecutionFile
deriving DecidableEq

/-- `ExecutionError` from `src/types.rs`. -/
structure ExecutionError where
  message : String
deriving DecidableEq

/-- `is_whitespace` from `src/utils.rs`: space, tab or carriage return. -/
def isWhitespaceByte (b : Nat) : Bool :=
  b = 32 || b = 9 || b = 13

/-- The backtracking inner loop of `autofix` (`src/utils.rs` lines
37-40): drop trailing whitespace bytes from a line. -/
def rstrip (l : Bytes) : Bytes :=
  ((l.reverse).dropWhile isWhitespaceByte).reverse

/-- The outer `while i < len` loop of `autofix` (`src/utils.rs` lines
25-55): take the next line up to `\n` (or end of input), strip its
trailing whitespace, emit it followed by one `\n`, then continue after
the `\n` if one was consumed. -/
def autofixLoop (l : Bytes) : Bytes :=
  if l = [] then []
  else
    let line := l.takeWhile (fun c => c != 10)
    match hrest : l.dropWhile (fun c => c != 10) with
    | [] => rstrip line ++ [10]
    | _ :: rest' => rstrip line ++ 10 :: autofixLoop rest'
termination_by l.length
decreasing_by
  have h1 : (l.dropWhile (fun c => c != 10)).length ≤ l.length :=
    ((List.dropWhile_suffix _).sublist).length_le
  rw [hrest] at h1
  simp at h1
  omega

/-- `autofix` from `src/utils.rs`: empty input yields empty output,
otherwise run the line loop. -/
def autofix (input : Bytes) : Bytes :=
  if input = [] then [] else autofixLoop input

/-- Spec-side ("OutputNormalizer contract") trailing-whitespace strip:
a byte is kept unless it is a space, tab or carriage return followed
only by such bytes. -/
def rstripSpec (l : Bytes) : Bytes :=
  l.foldr (fun c acc => if acc = [] ∧ (c = 32 ∨ c = 9 ∨ c = 13) then [] else c :: acc) []

/-- Spec-side split of a buffer at every `\n`, keeping the (possibly
empty) chunk after the last `\n`. -/
def splitKeep (b : Bytes) : List Bytes :=
  b.foldr
    (fun c acc =>
      if c = 10 then [] :: acc
      else
        match acc with
        | [] => [[c]]
        | h :: t => (c :: h) :: t)
    [[]]

/-- Spec-side "the input's lines": split at `\n`; when the input ends
with `\n` the trailing empty chunk is not a line. -/
def linesOf (b : Bytes) : List Bytes :=
  if b = [] then []
  else if b.getLast? = some 10 then (splitKeep b).dropLast
  else splitKeep b

/-- Spec-side normalized output: each line stripped of trailing
space/tab/carriage-return bytes, followed by exactly one `\n`. -/
def autofixSpec (b : Bytes) : Bytes :=
  ((linesOf b).map (fun l => rstripSpec l ++ [10])).flatten

/-! ### Lemmas about the output normalizer -/

theorem isWhitespaceByte_iff {c : Nat} :
    isWhitespaceByte c = true ↔ (c = 32 ∨ c = 9 ∨ c = 13) := by
  simp [isWhitespaceByte, or_assoc]

theorem rstripSpec_cons (c : Nat) (l : Bytes) :
    rstripSpec (c :: l) =
      if rstripSpec l = [] ∧ (c = 32 ∨ c = 9 ∨ c = 13) then [] else c :: rstripSpec l := by
  simp [rstripSpec]

theorem rstrip_eq_rstripSpec (l : Bytes) : rstrip l = rstripSpec l := by
  induction l with
  | nil => simp [rstrip, rstripSpec]
  | cons c l ih =>
    rw [rstripSpec_cons]
    unfold rstrip
    rw [List.reverse_cons, List.dropWhile_append]
    by_cases h : (l.reverse.dropWhile isWhitespaceByte) = []
    · have hl : rstripSpec l = [] := by
        rw [← ih]; unfold rstrip; rw [h]; rfl
      rw [h]
      simp only [List.isEmpty_nil, if_true, hl]
      by_cases hc : isWhitespaceByte c = true
      · have hc2 : (c = 32 ∨ c = 9 ∨ c = 13) := isWhitespaceByte_iff.mp hc
        simp [List.dropWhile_cons, hc, hc2]
      · have hc' : ¬ (c = 32 ∨ c = 9 ∨ c = 13) := by
          rw [← isWhitespaceByte_iff]; simp [hc]
        have hcf : isWhitespaceByte c = false := by simpa using hc
        simp [List.dropWhile_cons, hcf, hc']
    · have hl : rstripSpec l ≠ [] := by
        rw [← ih]; unfold rstrip; simpa using h
      simp only [List.isEmpty_eq_true, h, if_false, hl, false_and]
      rw [List.reverse_append]
      simp only [List.reverse_cons, List.reverse_nil, List.nil_append, List.singleton_append]
      rw [← ih]; rfl

theorem splitKeep_nil : splitKeep [] = [[]] := rfl

theorem splitKeep_cons_ten (b : Bytes) : splitKeep (10 :: b) = [] :: splitKeep b := rfl

theorem splitKeep_ne_nil (b : Bytes) : splitKeep b ≠ [] := by
  induction b with
  | nil => simp [splitKeep]
  | cons c b ih =>
    show splitKeep (c :: b) ≠ []
    unfold splitKeep
    simp only [List.foldr_cons]
    by_cases hc : c = 10
    · simp [hc]
    · simp only [hc, if_false]
      rcases hsk : (splitKeep b) with _ | ⟨h, t⟩
      · exact absurd hsk ih
      · unfold splitKeep at hsk
        rw [hsk]
        simp

theorem splitKeep_cons_ne {c : Nat} (hc : c ≠ 10) (b : Bytes) :
    ∃ h t, splitKeep b = h :: t ∧ splitKeep (c :: b) = (c :: h) :: t := by
  rcases hsk : splitKeep b with _ | ⟨h, t⟩
  · exact absurd hsk (splitKeep_ne_nil b)
  · refine ⟨h, t, rfl, ?_⟩
    show splitKeep (c :: b) = _
    unfold splitKeep
    simp only [List.foldr_cons, hc, if_false]
    unfold splitKeep at hsk
    rw [hsk]

theorem splitKeep_no_ten {b : Bytes} (h : 10 ∉ b) : splitKeep b = [b] := by
  induction b with
  | nil => rfl
  | cons c b ih =>
    have hc : c ≠ 10 := by intro hh; exact h (hh ▸ List.mem_cons_self c b)
    have hb : 10 ∉ b := fun hh => h (List.mem_cons_of_mem c hh)
    obtain ⟨hd, tl, h1, h2⟩ := splitKeep_cons_ne hc b
    rw [ih hb] at h1
    cases h1
    rw [h2]

theorem splitKeep_append_ten {a : Bytes} (ha : 10 ∉ a) (b : Bytes) :
    splitKeep (a ++ 10 :: b) = a :: splitKeep b := by
  induction a with
  | nil => exact splitKeep_cons_ten b
  | cons c a ih =>
    have hc : c ≠ 10 := by intro hh; exact ha (hh ▸ List.mem_cons_self c a)
    have ha' : 10 ∉ a := fun hh => ha (List.mem_cons_of_mem c hh)
    obtain ⟨hd, tl, h1, h2⟩ := splitKeep_cons_ne hc (a ++ 10 :: b)
    rw [ih ha'] at h1
    cases h1
    rw [List.cons_append, h2]

theorem linesOf_nil : linesOf [] = [] := rfl

theorem linesOf_split {a : Bytes} (ha : 10 ∉ a) (b : Bytes) :
    linesOf (a ++ 10 :: b) = a :: linesOf b := by
  have hne : a ++ 10 :: b ≠ [] := by simp
  have hlast : (a ++ 10 :: b).getLast? = (10 :: b).getLast? :=
    List.getLast?_append_cons a 10 b
  cases b with
  | nil =>
    unfold linesOf
    rw [if_neg hne, hlast]
    simp only [List.getLast?_singleton, if_true]
    rw [splitKeep_append_ten ha, splitKeep_nil]
    rfl
  | cons d b' =>
    have hlast2 : (10 :: d :: b').getLast? = (d :: b').getLast? := by
      rw [List.getLast?_cons_cons]
    by_cases hb : (d :: b').getLast? = some 10
    · unfold linesOf
      rw [if_neg hne, hlast, hlast2, if_pos hb, splitKeep_append_ten ha]
      obtain ⟨hd, tl, h1, _⟩ := splitKeep_cons_ne (by decide : (0:Nat) ≠ 10) (d :: b')
      simp only [List.cons_ne_nil, if_false, if_pos hb]
      rw [h1, List.dropLast_cons₂]
    · unfold linesOf
      rw [if_neg hne, hlast, hlast2, if_neg hb, splitKeep_append_ten ha]
      simp only [List.cons_ne_nil, if_false, if_neg hb]

theorem linesOf_no_ten {b : Bytes} (hne : b ≠ []) (h : 10 ∉ b) : linesOf b = [b] := by
  have hlast : b.getLast? ≠ some 10 := by
    intro hh
    exact h (List.mem_of_mem_getLast? hh)
  unfold linesOf
  rw [if_neg hne, if_neg hlast, splitKeep_no_ten h]

theorem dropWhile_head_false {p : Nat → Bool} :
    ∀ {l : Bytes} {c : Nat} {rest : Bytes}, l.dropWhile p = c :: rest → p c = false := by
  intro l
  induction l with
  | nil => intro c rest h; simp [List.dropWhile] at h
  | cons a l ih =>
    intro c rest h
    rw [List.dropWhile_cons] at h
    by_cases hp : p a = true
    · rw [if_pos hp] at h; exact ih h
    · rw [if_neg hp] at h; cases h; simpa using hp

theorem autofixLoop_eq_spec (l : Bytes) : autofixLoop l = autofixSpec l := by
  induction l using autofixLoop.induct with
  | case1 => rw [autofixLoop]; rfl
  | case2 l hne hrest =>
    have hl : l.takeWhile (fun c => c != 10) = l := by
      have := List.takeWhile_append_dropWhile (p := fun c => c != 10) (l := l)
      rw [hrest, List.append_nil] at this
      exact this
    have hmem : 10 ∉ l := by
      intro hmem
      have := List.mem_takeWhile_imp (hl ▸ hmem)
      simp at this
    rw [autofixLoop, if_neg hne, hrest]
    simp only
    rw [hl, rstrip_eq_rstripSpec]
    unfold autofixSpec
    rw [linesOf_no_ten hne hmem]
    simp
  | case3 l hne c rest' hrest ih =>
    have hc : c = 10 := by
      have := dropWhile_head_false hrest
      simpa using this
    subst hc
    have hsplit : l.takeWhile (fun c => c != 10) ++ 10 :: rest' = l := by
      have := List.takeWhile_append_dropWhile (p := fun c => c != 10) (l := l)
      rw [hrest] at this
      exact this
    have hmem : 10 ∉ l.takeWhile (fun c => c != 10) := by
      intro hmem
      have := List.mem_takeWhile_imp hmem
      simp at this
    rw [autofixLoop, if_neg hne, hrest]
    simp only
    rw [ih, rstrip_eq_rstripSpec]
    conv_rhs => rw [← hsplit]
    unfold autofixSpec
    rw [linesOf_split hmem]
    simp

theorem autofix_eq_autofixSpec (b : Bytes) : autofix b = autofixSpec b := by
  by_cases hb : b = []
  · subst hb; rfl
  · rw [autofix, if_neg hb, autofixLoop_eq_spec]

theorem ten_not_mem_rstripSpec {l : Bytes} (h : 10 ∉ l) : 10 ∉ rstripSpec l := by
  induction l with
  | nil => simp [rstripSpec]
  | cons c l ih =>
    have hc : c ≠ 10 := by intro hh; exact h (hh ▸ List.mem_cons_self c l)
    have hl : 10 ∉ l := fun hh => h (List.mem_cons_of_mem c hh)
    rw [rstripSpec_cons]
    by_cases hcase : rstripSpec l = [] ∧ (c = 32 ∨ c = 9 ∨ c = 13)
    · rw [if_pos hcase]; simp
    · rw [if_neg hcase]
      intro hmem
      rcases List.mem_cons.mp hmem with h1 | h2
      · exact hc h1.symm
      · exact ih hl h2

theorem rstripSpec_idem (l : Bytes) : rstripSpec (rstripSpec l) = rstripSpec l := by
  induction l with
  | nil => rfl
  | cons c l ih =>
    rw [rstripSpec_cons]
    by_cases hcase : rstripSpec l = [] ∧ (c = 32 ∨ c = 9 ∨ c = 13)
    · rw [if_pos hcase]; rfl
    · rw [if_neg hcase, rstripSpec_cons, ih]
      rw [if_neg hcase]

theorem mem_splitKeep_no_ten {b : Bytes} :
    ∀ l ∈ splitKeep b, 10 ∉ l := by
  induction b with
  | nil => intro l hl; rw [splitKeep_nil] at hl; simp at hl; simp [hl]
  | cons c b ih =>
    intro l hl
    by_cases hc : c = 10
    · subst hc
      rw [splitKeep_cons_ten] at hl
      rcases List.mem_cons.mp hl with h1 | h2
      · simp [h1]
      · exact ih l h2
    · obtain ⟨hd, tl, h1, h2⟩ := splitKeep_cons_ne hc b
      rw [h2] at hl
      rcases List.mem_cons.mp hl with h3 | h4
      · subst h3
        intro hmem
        rcases List.mem_cons.mp hmem with h5 | h6
        · exact hc h5.symm
        · exact ih hd (h1 ▸ List.mem_cons_self hd tl) h6
      · exact ih l (h1 ▸ List.mem_cons_of_mem hd h4)

theorem mem_linesOf_no_ten {b : Bytes} :
    ∀ l ∈ linesOf b, 10 ∉ l := by
  intro l hl
  unfold linesOf at hl
  by_cases hb : b = []
  · rw [if_pos hb] at hl; simp at hl
  · rw [if_neg hb] at hl
    by_cases hlast : b.getLast? = some 10
    · rw [if_pos hlast] at hl
      exact mem_splitKeep_no_ten l ((List.dropLast_sublist _).mem hl)
    · rw [if_neg hlast] at hl
      exact mem_splitKeep_no_ten l hl

theorem linesOf_flatten {L : List Bytes} (h : ∀ l ∈ L, 10 ∉ l) :
    linesOf ((L.map (fun l => l ++ [10])).flatten) = L := by
  induction L with
  | nil => rfl
  | cons l L ih =>
    have hl : 10 ∉ l := h l (List.mem_cons_self l L)
    have hL : ∀ x ∈ L, 10 ∉ x := fun x hx => h x (List.mem_cons_of_mem l hx)
    simp only [List.map_cons, List.flatten_cons]
    rw [List.append_assoc, List.singleton_append, linesOf_split hl, ih hL]

theorem autofixSpec_eq_flatten (b : Bytes) :
    autofixSpec b = (((linesOf b).map rstripSpec).map (fun l => l ++ [10])).flatten := by
  unfold autofixSpec
  rw [List.map_map]
  rfl

theorem autofixSpec_idem (b : Bytes) : autofixSpec (autofixSpec b) = autofixSpec b := by
  have hnomem : ∀ l ∈ (linesOf b).map rstripSpec, 10 ∉ l := by
    intro l hl
    obtain ⟨l0, hl0, rfl⟩ := List.mem_map.mp hl
    exact ten_not_mem_rstripSpec (mem_linesOf_no_ten l0 hl0)
  conv_lhs => rw [autofixSpec_eq_flatten b]
  rw [autofixSpec_eq_flatten, linesOf_flatten hnomem]
  rw [List.map_map, List.map_map]
  congr 1
  apply List.map_congr_left
  intro l hl
  simp only [Function.comp_apply]
  rw [rstripSpec_idem]

/-- C5: for every input byte buffer, `autofix` (the OutputNormalizer)
returns the concatenation, over the input's lines, of each line with its
trailing space, tab, and carriage-return bytes stripped, followed by
exactly one newline byte; empty input yields empty output; and the input
"a  \t\nb\r\n" yields "a\nb\n". -/
theorem autofix_normalizer_contract :
    (∀ input : Bytes,
        autofix input = ((linesOf input).map (fun l => rstripSpec l ++ [10])).flatten) ∧
    autofix [] = [] ∧
    autofix [97, 32, 32, 9, 10, 98, 13, 10] = [97, 10, 98, 10] := by
  refine ⟨fun input => autofix_eq_autofixSpec input, rfl, ?_⟩
  rw [autofix_eq_autofixSpec]
  decide

/-- C10: `autofix` (the OutputNormalizer) is idempotent: applying it to
its own output returns that output unchanged. -/
theorem autofix_idempotent (b : Bytes) : autofix (autofix b) = autofix b := by
  simp only [autofix_eq_autofixSpec, autofixSpec_idem]

/-! ### State model for the Worker (`src/worker.rs`) -/

/-- A file on disk: its bytes and its permission mode bits. -/
structure FsFile where
  content : Bytes
  mode : Nat
deriving DecidableEq

/-- The host file system, as an association list from full path to file;
the most recent write for a path shadows older entries. -/
abbrev Fs := List (String × FsFile)

/-- Write (create or truncate) a file at a path. -/
def fsWrite (fs : Fs) (p : String) (f : FsFile) : Fs := (p, f) :: fs

/-- Default mode of a newly created file. -/
def baseMode : Nat := 0o644

/-- `Worker` mutable state (`src/worker.rs` lines 18-23) plus the
external world it touches: host file system and blob store. The blob
store stands for `RedisFileManager`.

Modelled from the spec: `RedisFileManager` itself is not under `src/`
(only the analogous `FileManager` is); per the BlobStore contract,
`get(id)` returns the bytes stored under `id` and `put(id, bytes)`
stores them, last write winning. -/
structure WorkerState where
  path : String
  temp_files : List (Nat × Bytes)
  fs : Fs
  blobs : List (String × Bytes)
deriving DecidableEq

/-- Outcome of one step of `Worker::execute`: success, a returned
`ExecutionError`, or a Rust panic (`unwrap()` on `Err`/`None`). -/
inductive Res (α : Type) where
  | ok : α → Res α
  | err : ExecutionError → Res α
  | crash : String → Res α
deriving DecidableEq

/-- `rusage` substructure of the child status (user and system CPU time,
here already in milliseconds as `as_millis()` reports them). -/
structure Rusage where
  user_time_ms : Nat
  system_time_ms : Nat
deriving DecidableEq

/-- `proc_pid_status` substructure of the child status (`VmRSS` in KB). -/
structure ProcPidStatus where
  vmrss : Nat
deriving DecidableEq

/-- The observed outcome of spawning and waiting on the child
(hakoniwa's `output`): the optional exit code and the raw `code`, the
captured streams, and the two optional resource substructures. The
child is external, so this is an oracle input to `Worker.execute`. -/
structure RunOutcome where
  exit_code : Option Int
  code : Int
  stdout : Bytes
  stderr : Bytes
  rusage : Option Rusage
  proc_pid_status : Option ProcPidStatus
deriving DecidableEq

/-- Resolve one `copy_in` source (`src/worker.rs` lines 113-154).
`Local{name}` opens `name` as given (a host path, not scratch-relative);
a failed open is an `unwrap` panic; with `executable` the 0o111 bits are
also OR-ed onto that file. Missing `Tmp` ids yield empty bytes. Other
kinds return the `ExecutionError` "Unsupported file path for copy_in". -/
def resolveCopyInSource (st : WorkerState) (p : FilePath) : Res (Bytes × WorkerState) :=
  match p with
  | .Local name executable =>
      match st.fs.lookup name with
      | none => .crash "copy_in source open failed"
      | some f =>
          if executable then
            .ok (f.content, { st with fs := fsWrite st.fs name ⟨f.content, f.mode ||| 0o111⟩ })
          else
            .ok (f.content, st)
  | .Data content => .ok (content, st)
  | .Remote id =>
      match st.blobs.lookup id with
      | some d => .ok (d, st)
      | none => .crash "copy_in remote get failed"
  | .Tmp id =>
      match st.temp_files.lookup id with
      | none => .ok ([], st)
      | some d => .ok (d, st)
  | _ => .err ⟨"Unsupported file path for copy_in"⟩

/-- Apply one `copy_in` sink (`src/worker.rs` lines 156-190).
`Local{name}` creates `path + "/" + name`, ORs the 0o111 bits onto the
fresh file when `executable`, and writes the bytes (the net effect of
create / set_permissions / write_all). `Tmp` stores in the tmp map,
`Stdin` queues the bytes for the child. Others: `ExecutionError`. -/
def applyCopyInSink (st : WorkerState) (p : FilePath) (data : Bytes)
    (stdin : Option Bytes) : Res (WorkerState × Option Bytes) :=
  match p with
  | .Local name executable =>
      let full_path := st.path ++ "/" ++ name
      let mode := if executable then baseMode ||| 0o111 else baseMode
      .ok ({ st with fs := fsWrite st.fs full_path ⟨data, mode⟩ }, stdin)
  | .Tmp id =>
      .ok ({ st with temp_files := (id, data) :: st.temp_files.filter (fun e => e.1 != id) },
           stdin)
  | .Stdin => .ok (st, some data)
  | _ => .err ⟨"Unsupported file path for copy_in"⟩

/-- The `copy_in` staging loop (`src/worker.rs` lines 112-191), in
declaration order, threading the queued stdin bytes. -/
def copyInPhase (st : WorkerState) (stdin : Option Bytes) :
    List ExecutionTransfer → Res (WorkerState × Option Bytes)
  | [] => .ok (st, stdin)
  | t :: rest =>
      match resolveCopyInSource st t.from_ with
      | .err e => .err e
      | .crash m => .crash m
      | .ok (data, st1) =>
          match applyCopyInSink st1 t.to_ data stdin with
          | .err e => .err e
          | .crash m => .crash m
          | .ok (st2, stdin2) => copyInPhase st2 stdin2 rest

/-- The repeated `max_size` pattern on `Stdout`/`Stderr` sources
(`src/worker.rs` lines 293-316, 443-491): truncate to `size` bytes when
longer, otherwise keep the whole buffer. -/
def truncAt (max_size : Option Nat) (b : Bytes) : Bytes :=
  match max_size with
  | some size => if b.length > size then b.take size else b
  | none => b

/-- Resolve one `copy_out` source (`src/worker.rs` lines 292-358).
`Local{name}` opens `path + "/" + name`; on open failure it returns
empty bytes, except that with `executable` set it returns the
`ExecutionError` naming the failed path (the code appends the OS error
text to the message). Others: `ExecutionError`. -/
def resolveCopyOutSource (st : WorkerState) (stdout stderr : Bytes) (p : FilePath) :
    Res (Bytes × WorkerState) :=
  match p with
  | .Stdout max_size => .ok (truncAt max_size stdout, st)
  | .Stderr max_size => .ok (truncAt max_size stderr, st)
  | .Local name executable =>
      let full_path := st.path ++ "/" ++ name
      match st.fs.lookup full_path with
      | some f =>
          if executable then
            .ok (f.content,
                 { st with fs := fsWrite st.fs full_path ⟨f.content, f.mode ||| 0o111⟩ })
          else
            .ok (f.content, st)
      | none =>
          if executable then
            .err ⟨"failed to open file " ++ full_path ++ " for copy_out"⟩
          else
            .ok ([], st)
  | _ => .err ⟨"Unsupported file path for copy_out"⟩

/-- Apply one `copy_out` sink (`src/worker.rs` lines 360-394). `Tmp`
stores in the tmp map; `Remote` puts to the blob store; `Local{name}`
creates the file at `name` exactly as given (`File::create(&name)`, not
under the scratch path), writing the bytes and OR-ing the 0o111 bits
when `executable`. Others: `ExecutionError`. -/
def applyCopyOutSink (st : WorkerState) (p : FilePath) (data : Bytes) : Res WorkerState :=
  match p with
  | .Tmp id =>
      .ok { st with temp_files := (id, data) :: st.temp_files.filter (fun e => e.1 != id) }
  | .Remote id => .ok { st with blobs := (id, data) :: st.blobs }
  | .Local name executable =>
      let mode := if executable then baseMode ||| 0o111 else baseMode
      .ok { st with fs := fsWrite st.fs name ⟨data, mode⟩ }
  | _ => .err ⟨"Unsupported file path for copy_out"⟩

/-- The `copy_out` loop (`src/worker.rs` lines 291-395), in declaration
order. -/
def copyOutPhase (st : WorkerState) (stdout stderr : Bytes) :
    List ExecutionTransfer → Res WorkerState
  | [] => .ok st
  | t :: rest =>
      match resolveCopyOutSource st stdout stderr t.from_ with
      | .err e => .err e
      | .crash m => .crash m
      | .ok (data, st1) =>
          match applyCopyOutSink st1 t.to_ data with
          | .err e => .err e
          | .crash m => .crash m
          | .ok st2 => copyOutPhase st2 stdout stderr rest

/-- Produce one `return_files` entry (`src/worker.rs` lines 399-506).
`Local{name}` opens `path + "/" + name` (open failure is an `unwrap`
panic) and emits the entry named `name`, OR-ing the 0o111 bits when
`executable`; `Remote{id}` fetches the blob (panic on failure) as
"remote_<id>"; `Stdout`/`Stderr` emit "stdout"/"stderr" with `max_size`
truncation; `Tmp{id}` removes the tmp entry — `remove(&id).unwrap()`,
a panic when the id is absent — as "tmp_<id>". Others: `ExecutionError`. -/
def returnFileOne (st : WorkerState) (stdout stderr : Bytes) (p : FilePath) :
    Res (ExecutionFile × WorkerState) :=
  match p with
  | .Local name executable =>
      let full_path := st.path ++ "/" ++ name
      match st.fs.lookup full_path with
      | none => .crash "return_files source open failed"
      | some f =>
          if executable then
            .ok (⟨name, f.content⟩,
                 { st with fs := fsWrite st.fs full_path ⟨f.content, f.mode ||| 0o111⟩ })
          else
            .ok (⟨name, f.content⟩, st)
  | .Remote id =>
      match st.blobs.lookup id with
      | some d => .ok (⟨"remote_" ++ id, d⟩, st)
      | none => .crash "return_files remote get failed"
  | .Stderr max_size => .ok (⟨"stderr", truncAt max_size stderr⟩, st)
  | .Stdout max_size => .ok (⟨"stdout", truncAt max_size stdout⟩, st)
  | .Tmp id =>
      match st.temp_files.lookup id with
      | none => .crash "return_files tmp remove unwrap on missing id"
      | some d =>
          .ok (⟨"tmp_" ++ toString id, d⟩,
               { st with temp_files := st.temp_files.filter (fun e => e.1 != id) })
  | _ => .err ⟨"Unsupported file path for return_files"⟩

/-- The `return_files` drain loop (`src/worker.rs` lines 398-507), in
declaration order, accumulating the entries in order. -/
def returnFilesPhase (st : WorkerState) (stdout stderr : Bytes) :
    List FilePath → Res (List ExecutionFile × WorkerState)
  | [] => .ok ([], st)
  | p :: rest =>
      match returnFileOne st stdout stderr p with
      | .err e => .err e
      | .crash m => .crash m
      | .ok (f, st1) =>
          match returnFilesPhase st1 stdout stderr rest with
          | .err e => .err e
          | .crash m => .crash m
          | .ok (fs, st2) => .ok (f :: fs, st2)

/-- Stdout normalization (`src/worker.rs` lines 283-287): run `autofix`
unless the execution set `autofix` to `false`. -/
def normStdout (auto : Option Bool) (stdoutRaw : Bytes) : Bytes :=
  if auto.getD true then autofix stdoutRaw else stdoutRaw

/-- The post-wait part of `Worker::execute` (`src/worker.rs` lines
283-507) that depends only on the exit code and the captured streams:
normalize stdout, run `copy_out` only when `exit_code.unwrap_or(0) == 0`
(line 289), then drain `return_files` unconditionally. -/
def executePhases (st : WorkerState) (ex : Execution) (exit_code : Option Int)
    (stdoutRaw stderr : Bytes) : Res (List ExecutionFile × WorkerState) :=
  match copyInPhase st none ex.copy_in with
  | .err e => .err e
  | .crash m => .crash m
  | .ok (st1, _stdin) =>
      let stdout := normStdout ex.autofix stdoutRaw
      match (if exit_code.getD 0 = 0 then copyOutPhase st1 stdout stderr ex.copy_out
             else .ok st1) with
      | .err e => .err e
      | .crash m => .crash m
      | .ok st2 => returnFilesPhase st2 stdout stderr ex.return_files

/-- `Worker::execute` (`src/worker.rs` lines 104-524) given the observed
child outcome `oc`: stage `copy_in`, run the guarded `copy_out` and the
unconditional `return_files` drain, and assemble the `ExecutionResult`
with `exit_code = status.code`, `time_used = user+system` ms (0 when
`rusage` is absent) and `memory_used = VmRSS` KB (0 when
`proc_pid_status` is absent). Spawn/wait failures are earlier error
returns not modelled here; rlimit setting and the stdin feed thread do
not affect the result. -/
def Worker.execute (st : WorkerState) (ex : Execution) (oc : RunOutcome) :
    Res (ExecutionResult × WorkerState) :=
  match executePhases st ex oc.exit_code oc.stdout oc.stderr with
  | .err e => .err e
  | .crash m => .crash m
  | .ok (files, st3) =>
      .ok ({ exit_code := oc.code,
             time_used := match oc.rusage with
                          | some r => r.user_time_ms + r.system_time_ms
                          | none => 0,
             memory_used := match oc.proc_pid_status with
                            | some r => r.vmrss
                            | none => 0,
             return_files := files }, st3)

/-! ### Batch control (`src/handlers/run.rs`) -/

/-- What `execute_execution` hands the batch loops for one execution:
`Ok(ExecutionResult)` or the mapped error string. -/
abbrev ExecOutcome := Except String ExecutionResult

/-- Trace of one SSE batch (`execute_code_inner`): the results sent over
the channel, how many executions were actually run, and whether
`worker.cleanup()` ran. -/
structure BatchTrace where
  sent : List ExecutionResult
  ran : Nat
  cleaned_up : Bool
deriving DecidableEq

/-- The `for request in payload.executions` loop of `execute_code_inner`
(`src/handlers/run.rs` lines 104-119), over the per-execution outcomes:
an `Err` is coerced to `exit_code = 1` and nothing is sent for it; an
`Ok` result is sent; the loop breaks after an execution with
`die_on_error && exit_code != 0`. Returns (sent results, executions run). -/
def runBatchLoop : List (Bool × ExecOutcome) → List ExecutionResult × Nat
  | [] => ([], 0)
  | (die_on_error, result) :: rest =>
      let exit_code : Int := match result with
        | .ok res => res.exit_code
        | .error _ => 1
      let sentHere : List ExecutionResult := match result with
        | .ok res => [res]
        | .error _ => []
      if die_on_error ∧ exit_code ≠ 0 then (sentHere, 1)
      else
        let (s, n) := runBatchLoop rest
        (sentHere ++ s, n + 1)

/-- `execute_code_inner` (`src/handlers/run.rs` lines 104-122): run the
batch loop, then `worker.cleanup()` always runs after it. -/
def execute_code_inner (xs : List (Bool × ExecOutcome)) : BatchTrace :=
  let (s, n) := runBatchLoop xs
  ⟨s, n, true⟩

/-- The WebSocket `Batch` arm of `handle_socket` (`src/handlers/run.rs`
lines 210-247), with sends assumed to succeed: every outcome (result or
error message) is sent; after an `Ok` with non-zero `exit_code` and
`die_on_error` the loop breaks; an `Err` never breaks the loop.
Returns (messages sent, executions run). -/
def wsBatchLoop : List (Bool × ExecOutcome) → List ExecOutcome × Nat
  | [] => ([], 0)
  | (die_on_error, result) :: rest =>
      match result with
      | .ok res =>
          if res.exit_code ≠ 0 ∧ die_on_error then ([.ok res], 1)
          else
            let (s, n) := wsBatchLoop rest
            (.ok res :: s, n + 1)
      | .error e =>
          let (s, n) := wsBatchLoop rest
          (.error e :: s, n + 1)

/-! ### Concrete fixtures -/

/-- A fresh worker on scratch root "/s": empty tmp map, empty host file
system, empty blob store. -/
def freshWorker : WorkerState := ⟨"/s", [], [], []⟩

/-- Execution with `copy_out = [Stdout → Remote "sink"]` and no other
directives (`autofix` disabled to keep stdout verbatim). -/
def killEx : Execution :=
  ⟨"/bin/sleep", ["10"], 1, 1, 1024, [⟨.Stdout none, .Remote "sink"⟩], [], [], false, some false⟩

/-- Outcome of a child killed at the wall-time limit: it reports no exit
code (`exit_code = None`) and a non-zero `status.code` (137). -/
def killOc : RunOutcome := ⟨none, 137, [104], [], none, none⟩

/-- Execution with `copy_out = [Stdout → Local "out"]`. -/
def outLocalEx : Execution :=
  ⟨"/bin/true", [], 1, 1, 1024, [⟨.Stdout none, .Local "out" false⟩], [], [], false, some false⟩

/-- A successful child with stdout "h". -/
def okOc : RunOutcome := ⟨some 0, 0, [104], [], none, none⟩

/-- Execution asking `return_files = [Tmp 5]`. -/
def tmpRetEx : Execution := ⟨"/bin/true", [], 1, 1, 1024, [], [], [.Tmp 5], false, some false⟩

/-- C1: the claim reads "for every execution whose child does not exit
with code 0 — including a child killed at the wall-time limit, which
reports no exit code — none of the copy_out sinks are written". The
guard at `src/worker.rs` line 289 is `exit_code.unwrap_or(0) == 0`, so a
killed child with `exit_code = None` is treated as success: this theorem
evaluates `Worker::execute` at such an outcome and shows the completed
result carries the non-zero `exit_code` 137 while the `Remote "sink"`
put did occur — contradicting the claim and the code's own comment
"only copy out files when process is successful". -/
theorem c1_killed_child_still_puts_remote :
    Worker.execute freshWorker killEx killOc =
      .ok (⟨137, 0, 0, []⟩, ⟨"/s", [], [], [("sink", [104])]⟩) := by
  rfl

/-- C3: the claim reads "for every directive (in copy_in and in copy_out
alike) whose sink is Local{name, executable}, the resolved bytes are
written to the file at scratch_root + \"/\" + name". Counterexample: a
`copy_out` directive with sink `Local "out"` on scratch root "/s" writes
the bytes to the path "out" exactly as given (`File::create(&name)`,
`src/worker.rs` line 372) and writes nothing at "/s/out". -/
theorem c3_counterexample :
    ∃ r st', Worker.execute freshWorker outLocalEx okOc = .ok (r, st') ∧
      st'.fs.lookup ("/s" ++ "/" ++ "out") = none ∧
      st'.fs.lookup "out" = some ⟨[104], 420⟩ := by
  refine ⟨⟨0, 0, 0, []⟩, ⟨"/s", [], [("out", ⟨[104], 420⟩)], []⟩, rfl, by decide, by decide⟩

/-- C3 amended: a `copy_in` directive with sink `Local{name, executable}`
writes the resolved bytes to `path + "/" + name` with the 0o111 bits
OR-ed in when `executable`; a `copy_out` directive with the same sink
writes them to the path `name` exactly as given (not under the scratch
root), likewise applying the 0o111 bits when `executable`. -/
theorem c3_local_sink_paths (st : WorkerState) (name : String) (exec : Bool)
    (data : Bytes) (stdin : Option Bytes) :
    applyCopyInSink st (.Local name exec) data stdin =
      .ok ({ st with fs := (fsWrite st.fs (st.path ++ "/" ++ name)
               ⟨data, if exec then baseMode ||| 0o111 else baseMode⟩) }, stdin) ∧
    applyCopyOutSink st (.Local name exec) data =
      .ok { st with fs := (fsWrite st.fs name
              ⟨data, if exec then baseMode ||| 0o111 else baseMode⟩) } :=
  ⟨rfl, rfl⟩

/-- C3 amended, witness at a concrete input. -/
theorem c3_local_sink_paths_witness :
    applyCopyInSink freshWorker (.Local "a.txt" true) [7] none =
      .ok ({ freshWorker with
             fs := (fsWrite freshWorker.fs ("/s" ++ "/" ++ "a.txt") ⟨[7], 493⟩) }, none) ∧
    applyCopyOutSink freshWorker (.Local "a.txt" true) [7] =
      .ok { freshWorker with fs := (fsWrite freshWorker.fs "a.txt" ⟨[7], 493⟩) } :=
  c3_local_sink_paths freshWorker "a.txt" true [7] none

/-- C4: the claim reads "for every source directive referencing Tmp{id}
where id is absent from the Worker's tmp map — whether the directive
appears in copy_in or in return_files — resolution yields empty bytes
and the execution does not fail". Counterexample: an execution whose
`return_files` asks for the absent `Tmp 5` panics
(`self.temp_files.remove(&id).unwrap()`, `src/worker.rs` line 494)
instead of yielding empty bytes. -/
theorem c4_counterexample :
    Worker.execute freshWorker tmpRetEx okOc =
      .crash "return_files tmp remove unwrap on missing id" := by
  rfl

/-- C4 amended: a `Tmp{id}` source with `id` absent from the tmp map
yields empty bytes without error in `copy_in`, but in `return_files` it
panics (the `remove(&id).unwrap()` of a `None`) rather than yielding
empty bytes. -/
theorem c4_missing_tmp (st : WorkerState) (id : Nat)
    (h : st.temp_files.lookup id = none) :
    resolveCopyInSource st (.Tmp id) = .ok ([], st) ∧
    ∀ stdout stderr : Bytes,
      returnFileOne st stdout stderr (.Tmp id) =
        .crash "return_files tmp remove unwrap on missing id" := by
  constructor
  · simp only [resolveCopyInSource, h]
  · intro stdout stderr
    simp only [returnFileOne, h]

/-- C4 amended, witness at a concrete input. -/
theorem c4_missing_tmp_witness :
    resolveCopyInSource freshWorker (.Tmp 5) = .ok ([], freshWorker) ∧
    returnFileOne freshWorker [1] [2] (.Tmp 5) =
      .crash "return_files tmp remove unwrap on missing id" :=
  ⟨(c4_missing_tmp freshWorker 5 rfl).1, (c4_missing_tmp freshWorker 5 rfl).2 [1] [2]⟩

/-- C9: a `copy_out` directive with source `Local{name, executable}`
whose file `path + "/" + name` cannot be opened resolves to empty bytes
and proceeds when `executable` is false, and returns an `ExecutionError`
whose message names the failed path when `executable` is true
(`src/worker.rs` lines 340-350; the code appends the OS error text to
that message). -/
theorem c9_copy_out_local_open_failure (st : WorkerState) (name : String)
    (stdout stderr : Bytes) (h : st.fs.lookup (st.path ++ "/" ++ name) = none) :
    resolveCopyOutSource st stdout stderr (.Local name false) = .ok ([], st) ∧
    resolveCopyOutSource st stdout stderr (.Local name true) =
      .err ⟨"failed to open file " ++ (st.path ++ "/" ++ name) ++ " for copy_out"⟩ := by
  constructor
  · simp [resolveCopyOutSource, h]
  · simp [resolveCopyOutSource, h]

/-- C9 witness at a concrete input. -/
theorem c9_copy_out_local_open_failure_witness :
    resolveCopyOutSource freshWorker [3] [4] (.Local "x" false) = .ok ([], freshWorker) ∧
    resolveCopyOutSource freshWorker [3] [4] (.Local "x" true) =
      .err ⟨"failed to open file " ++ ("/s" ++ "/" ++ "x") ++ " for copy_out"⟩ :=
  c9_copy_out_local_open_failure freshWorker "x" [3] [4] rfl

/-- C2 counterexample: the claim reads "if an execution returns a hard
ExecutionError, the Worker stops the batch and does not run the
remaining executions, regardless of that execution's die_on_error
flag". In `execute_code_inner` an error is coerced to `exit_code = 1`
and the loop breaks only when `die_on_error` holds
(`src/handlers/run.rs` lines 108-118): with `die_on_error = false` the
first execution errors hard and the second still runs (both executions
ran, and the second result was sent). -/
theorem c2_counterexample :
    execute_code_inner [(false, .error "boom"), (false, .ok ⟨0, 0, 0, []⟩)] =
      ⟨[⟨0, 0, 0, []⟩], 2, true⟩ := by
  rfl

/-- C2 amended: in the SSE batch loop (`execute_code_inner`) a hard
`ExecutionError` is treated as exit code 1, so it stops the batch only
when that execution's `die_on_error` flag is true (nothing is sent for
it); with the flag false the remaining executions run. In the WebSocket
batch loop a hard error never stops the batch (the error message is
sent and the loop continues). Cleanup runs regardless. -/
theorem c2_error_batch_behaviour (d : Bool) (e : String)
    (rest : List (Bool × ExecOutcome)) :
    execute_code_inner ((d, .error e) :: rest) =
      (if d then ⟨[], 1, true⟩
       else ⟨(runBatchLoop rest).1, (runBatchLoop rest).2 + 1, true⟩) ∧
    wsBatchLoop ((d, .error e) :: rest) =
      (.error e :: (wsBatchLoop rest).1, (wsBatchLoop rest).2 + 1) := by
  constructor
  · cases d with
    | true => simp [execute_code_inner, runBatchLoop]
    | false => simp [execute_code_inner, runBatchLoop]
  · simp [wsBatchLoop]

/-- C7: if an execution returns a successful result with non-zero
`exit_code` and its `die_on_error` flag is true, the batch stops after
sending that one result and the remaining executions are not run — in
both the SSE loop and the WebSocket loop. -/
theorem c7_die_on_error_stops_batch (res : ExecutionResult)
    (rest : List (Bool × ExecOutcome)) (h : res.exit_code ≠ 0) :
    execute_code_inner ((true, .ok res) :: rest) = ⟨[res], 1, true⟩ ∧
    wsBatchLoop ((true, .ok res) :: rest) = ([.ok res], 1) := by
  constructor
  · simp [execute_code_inner, runBatchLoop, h]
  · simp [wsBatchLoop, h]

/-- C7 witness: the batch [E1 = /bin/false with die_on_error = true,
E2 = /bin/true]: exactly one result (exit code 1) is produced and the
second execution never runs. -/
theorem c7_die_on_error_stops_batch_witness :
    execute_code_inner [(true, .ok ⟨1, 0, 0, []⟩), (false, .ok ⟨0, 0, 0, []⟩)] =
      ⟨[⟨1, 0, 0, []⟩], 1, true⟩ ∧
    wsBatchLoop [(true, .ok ⟨1, 0, 0, []⟩), (false, .ok ⟨0, 0, 0, []⟩)] =
      ([.ok ⟨1, 0, 0, []⟩], 1) :=
  c7_die_on_error_stops_batch ⟨1, 0, 0, []⟩ [(false, .ok ⟨0, 0, 0, []⟩)] (by decide)

/-- What the claim C6 requires of one produced `return_files` entry for
one requested path: the entry name is `name` for `Local{name}`,
"tmp_<id>" for `Tmp{id}`, "remote_<id>" for `Remote{id}`, and
"stdout"/"stderr" for `Stdout`/`Stderr` with the `max_size` truncation
honoured on the content; `Data`/`Stdin` never produce an entry. -/
def returnedMatches (p : FilePath) (f : ExecutionFile) (stdout stderr : Bytes) : Prop :=
  match p with
  | .Local name _ => f.name = name
  | .Tmp id => f.name = "tmp_" ++ toString id
  | .Remote id => f.name = "remote_" ++ id
  | .Stdout ms => f.name = "stdout" ∧ f.content = truncAt ms stdout
  | .Stderr ms => f.name = "stderr" ∧ f.content = truncAt ms stderr
  | _ => False

theorem returnFileOne_matches {st : WorkerState} {stdout stderr : Bytes} {p : FilePath}
    {f : ExecutionFile} {st1 : WorkerState}
    (h : returnFileOne st stdout stderr p = .ok (f, st1)) :
    returnedMatches p f stdout stderr := by
  cases p with
  | Local name exec =>
      simp only [returnFileOne] at h
      split at h
      · simp at h
      · split at h <;>
          · simp only [Res.ok.injEq, Prod.mk.injEq] at h
            obtain ⟨h1, -⟩ := h
            subst h1
            simp [returnedMatches]
  | Data content => simp [returnFileOne] at h
  | Remote id =>
      simp only [returnFileOne] at h
      split at h
      · simp only [Res.ok.injEq, Prod.mk.injEq] at h
        obtain ⟨h1, -⟩ := h
        subst h1
        simp [returnedMatches]
      · simp at h
  | Stdout ms =>
      simp only [returnFileOne, Res.ok.injEq, Prod.mk.injEq] at h
      obtain ⟨h1, -⟩ := h
      subst h1
      simp [returnedMatches]
  | Stderr ms =>
      simp only [returnFileOne, Res.ok.injEq, Prod.mk.injEq] at h
      obtain ⟨h1, -⟩ := h
      subst h1
      simp [returnedMatches]
  | Stdin => simp [returnFileOne] at h
  | Tmp id =>
      simp only [returnFileOne] at h
      split at h
      · simp at h
      · simp only [Res.ok.injEq, Prod.mk.injEq] at h
        obtain ⟨h1, -⟩ := h
        subst h1
        simp [returnedMatches]

theorem returnFilesPhase_matches {stdout stderr : Bytes} :
    ∀ {ps : List FilePath} {st : WorkerState} {files : List ExecutionFile}
      {st' : WorkerState},
      returnFilesPhase st stdout stderr ps = .ok (files, st') →
      List.Forall₂ (fun p f => returnedMatches p f stdout stderr) ps files := by
  intro ps
  induction ps with
  | nil =>
    intro st files st' h
    simp only [returnFilesPhase, Res.ok.injEq, Prod.mk.injEq] at h
    obtain ⟨h1, -⟩ := h
    subst h1
    exact List.Forall₂.nil
  | cons p rest ih =>
    intro st files st' h
    simp only [returnFilesPhase] at h
    split at h
    · simp at h
    · simp at h
    · rename_i f st1 hone
      split at h
      · simp at h
      · simp at h
      · rename_i fs2 st2 hrest
        simp only [Res.ok.injEq, Prod.mk.injEq] at h
        obtain ⟨h1, -⟩ := h
        subst h1
        exact List.Forall₂.cons (returnFileOne_matches hone) (ih hrest)

theorem executePhases_ok_inv {st : WorkerState} {ex : Execution} {ec : Option Int}
    {so se : Bytes} {files : List ExecutionFile} {st3 : WorkerState}
    (h : executePhases st ex ec so se = .ok (files, st3)) :
    ∃ st2, returnFilesPhase st2 (normStdout ex.autofix so) se ex.return_files =
      .ok (files, st3) := by
  simp only [executePhases] at h
  split at h
  · simp at h
  · simp at h
  · split at h
    · simp at h
    · simp at h
    · exact ⟨_, h⟩

/-- C6: for every execution, the result's `return_files` list is drained
regardless of the exit code and pairs up with `E.return_files` element
by element in order: entries are named `name` for `Local{name}`,
"tmp_<id>" for `Tmp{id}`, "remote_<id>" for `Remote{id}`, and
"stdout"/"stderr" for `Stdout`/`Stderr`, the latter honouring the
optional `max_size` truncation (the exit code is arbitrary here — the
drain is outside the copy_out guard). -/
theorem c6_return_files_drained (st : WorkerState) (ex : Execution) (oc : RunOutcome)
    (r : ExecutionResult) (st' : WorkerState)
    (h : Worker.execute st ex oc = .ok (r, st')) :
    List.Forall₂
      (fun p f => returnedMatches p f (normStdout ex.autofix oc.stdout) oc.stderr)
      ex.return_files r.return_files := by
  simp only [Worker.execute] at h
  rcases hps : executePhases st ex oc.exit_code oc.stdout oc.stderr with ⟨files, st3⟩ | e | m
  · rw [hps] at h
    simp only [Res.ok.injEq, Prod.mk.injEq] at h
    obtain ⟨h1, -⟩ := h
    obtain ⟨st2, hret⟩ := executePhases_ok_inv hps
    have : r.return_files = files := by rw [← h1]
    rw [this]
    exact returnFilesPhase_matches hret
  · rw [hps] at h; simp at h
  · rw [hps] at h; simp at h

/-- Worker state holding tmp id 3, used for the C6 witness. -/
def drainSt : WorkerState := ⟨"/s", [(3, [5])], [], []⟩

/-- Execution requesting stdout, capped stderr and tmp 3 back, used for
the C6 witness. -/
def drainEx : Execution :=
  ⟨"/bin/false", [], 1, 1, 1024, [], [], [.Stdout none, .Stderr (some 1), .Tmp 3],
   false, some false⟩

/-- Failing child outcome (exit code 1) with both streams non-empty,
used for the C6 witness. -/
def drainOc : RunOutcome := ⟨some 1, 1, [104, 105], [101, 102], none, none⟩

/-- The result `Worker.execute drainSt drainEx drainOc` produces. -/
def drainRes : ExecutionResult :=
  ⟨1, 0, 0, [⟨"stdout", [104, 105]⟩, ⟨"stderr", [101]⟩, ⟨"tmp_3", [5]⟩]⟩

/-- C6 witness: a concrete execution with non-zero exit code still
drains all three requested return files, in order, with the spec names
and the stderr `max_size` truncation. -/
theorem c6_return_files_drained_witness :
    List.Forall₂
      (fun p f => returnedMatches p f (normStdout drainEx.autofix drainOc.stdout)
        drainOc.stderr)
      drainEx.return_files drainRes.return_files :=
  c6_return_files_drained drainSt drainEx drainOc drainRes ⟨"/s", [], [], []⟩ (by rfl)

/-- C8: for every execution that reaches the wait stage successfully,
absence of `rusage` (resp. `proc_pid_status`) does not make the
execution fail: the Worker still returns `Ok`, with `time_used = 0`
(resp. `memory_used = 0`) substituted for the missing metric and every
other field unchanged (`src/worker.rs` lines 261-281 and 509-516). -/
theorem c8_missing_resource_figures_tolerated (st : WorkerState) (ex : Execution)
    (ec : Option Int) (code : Int) (so se : Bytes)
    (ru : Option Rusage) (pps : Option ProcPidStatus)
    (r : ExecutionResult) (st' : WorkerState)
    (h : Worker.execute st ex ⟨ec, code, so, se, ru, pps⟩ = .ok (r, st')) :
    Worker.execute st ex ⟨ec, code, so, se, none, pps⟩ =
      .ok ({ r with time_used := 0 }, st') ∧
    Worker.execute st ex ⟨ec, code, so, se, ru, none⟩ =
      .ok ({ r with memory_used := 0 }, st') := by
  simp only [Worker.execute] at h ⊢
  rcases hps : executePhases st ex ec so se with ⟨files, st3⟩ | e | m
  · rw [hps] at h
    simp only [Res.ok.injEq, Prod.mk.injEq] at h
    obtain ⟨h1, h2⟩ := h
    subst h2
    rw [← h1]
    exact ⟨rfl, rfl⟩
  · rw [hps] at h; simp at h
  · rw [hps] at h; simp at h

/-- Execution with no directives at all, used for the C8 witness. -/
def quietEx : Execution := ⟨"/bin/true", [], 1, 1, 1024, [], [], [], false, some false⟩

/-- C8 witness: dropping `rusage` (resp. `proc_pid_status`) from a
concrete successful outcome still yields `Ok`, with 0 substituted for
the corresponding metric only. -/
theorem c8_missing_resource_figures_tolerated_witness :
    Worker.execute freshWorker quietEx ⟨some 0, 0, [], [], none, some ⟨9⟩⟩ =
      .ok (⟨0, 0, 9, []⟩, freshWorker) ∧
    Worker.execute freshWorker quietEx ⟨some 0, 0, [], [], some ⟨3, 4⟩, none⟩ =
      .ok (⟨0, 7, 0, []⟩, freshWorker) :=
  c8_missing_resource_figures_tolerated freshWorker quietEx (some 0) 0 [] []
    (some ⟨3, 4⟩) (some ⟨9⟩) ⟨0, 7, 9, []⟩ freshWorker (by rfl)
